import Mathlib

set_option maxHeartbeats 1000000

/-!
Shallow embedding of the IGDB/SteamSpy enrichment pipeline
(`enrich_igdb_with_steam.py` and `retry_failed_steamspy.py`).

JSON documents are modelled by the inductive `Json`; Python dicts are
association lists in insertion order (Python dicts preserve insertion
order and have unique keys).  The network is modelled by an abstract
transport outcome per request, and the per-identifier fetcher used by the
two drivers is an abstract function `Int → Option Json`, matching the
`Optional[Dict]` signature of `get_steamspy_data`.  Python exceptions are
modelled with `Except PyErr`.
-/

/-- JSON values as produced by `json.load`.  Numbers are integers: every
numeric field the scripts touch (`appid`, `uid`) is integral. -/
inductive Json where
  | null : Json
  | bool : Bool → Json
  | num : Int → Json
  | str : String → Json
  | arr : List Json → Json
  | obj : List (String × Json) → Json

/-- The Python exception classes the modelled code can raise. -/
inductive PyErr where
  | typeError : PyErr
  | keyError : PyErr
  | attributeError : PyErr
deriving DecidableEq

/-- `d.get(k)` on a Python dict: the value stored under `k`, if present. -/
def assocGet {α β : Type} [DecidableEq α] : List (α × β) → α → Option β
  | [], _ => none
  | (k', v) :: rest, k => if k' = k then some v else assocGet rest k

/-- `d[k] = v` on a Python dict: overwrite the existing key in place
(keeping its position) or append a new key at the end. -/
def assocSet {α β : Type} [DecidableEq α] : List (α × β) → α → β → List (α × β)
  | [], k, v => [(k, v)]
  | (k', v') :: rest, k, v =>
    if k' = k then (k, v) :: rest else (k', v') :: assocSet rest k v

/-- One IGDB game record: a JSON object, given by its field list. -/
abbrev Game := List (String × Json)

/-- Python truthiness of a JSON value (`if data:` / `if failed_steam_ids:`). -/
def jsonTruthy : Json → Bool
  | .null => false
  | .bool b => b
  | .num n => n != 0
  | .str s => !s.isEmpty
  | .arr xs => !xs.isEmpty
  | .obj kvs => !kvs.isEmpty

/-- Python `==` between a JSON value and a string literal: only a string
compares equal; no cross-type coercion to `str` exists. -/
def jsonEqStr : Json → String → Bool
  | .str t, s => t == s
  | _, _ => false

/-- Python `==` between a JSON value and an `int`.  `bool` is an `int`
subclass, so `True == 1` and `False == 0`; every other type is unequal. -/
def pyEqInt : Json → Int → Bool
  | .num n, m => n == m
  | .bool b, m => (if b then (1 : Int) else 0) == m
  | _, _ => false

/-- Value of a digit string, underscores already removed. -/
def digitsToNat (cs : List Char) : Nat :=
  cs.foldl (fun a c => a * 10 + (c.toNat - '0'.toNat)) 0

/-- Validity of the part of an integer literal after the first digit:
digits, with single underscores allowed only between digits
(Python's `int()` grammar). -/
def intTailValid : List Char → Bool
  | [] => true
  | c :: rest =>
    if c.isDigit then intTailValid rest
    else if c = '_' then
      match rest with
      | [] => false
      | d :: _ => d.isDigit && intTailValid rest
    else false

/-- Strip leading and trailing whitespace characters, as Python's `int()`
does before parsing. -/
def stripChars (cs : List Char) : List Char :=
  ((cs.dropWhile Char.isWhitespace).reverse.dropWhile Char.isWhitespace).reverse

/-- Python `int(s)` on a string: strip surrounding whitespace, optional
sign, then digits with optional single underscores between digits.
`none` models the `ValueError` raised on anything else. -/
def parseIntStr (s : String) : Option Int :=
  let cs := stripChars s.data
  let (neg, body) :=
    match cs with
    | '+' :: rest => (false, rest)
    | '-' :: rest => (true, rest)
    | rest => (false, rest)
  match body with
  | [] => none
  | c :: _ =>
    if c.isDigit && intTailValid body then
      let v : Int := Int.ofNat (digitsToNat (body.filter (fun c => c != '_')))
      some (if neg then -v else v)
    else none

/-- Python `int(x)` on a JSON value: `some` on success.  `null`, arrays and
objects raise `TypeError`, a non-numeric string raises `ValueError`; the
callers catch `(ValueError, TypeError)` alike, so `none` covers both. -/
def pyToInt : Json → Option Int
  | .num n => some n
  | .bool b => some (if b then 1 else 0)
  | .str s => parseIntStr s
  | _ => none

/-- Python `for x in v`: the sequence of iterates.  Iterating an array
yields its elements, a string its one-character substrings, a dict its
keys; anything else raises `TypeError`. -/
def iterElems : Json → Except PyErr (List Json)
  | .arr xs => .ok xs
  | .str s => .ok (s.data.map fun c => .str (String.mk [c]))
  | .obj kvs => .ok (kvs.map fun kv => .str kv.1)
  | _ => .error .typeError

/-- Outcome of one `requests.get` call: a transport-level error
(`requests.exceptions.RequestException`), or a response with an HTTP
status code and a body that either parses as JSON or does not
(`json.JSONDecodeError`). -/
inductive TransportResult where
  | err : TransportResult
  | resp : Nat → Option Json → TransportResult

/-- `get_steamspy_data(app_id)` — identical logic in both scripts.
`response.raise_for_status()` raises `HTTPError` exactly for status
codes in the client/server error bands `400 ≤ status < 600` (statuses
outside them, e.g. `999`, are delivered without raising); the function
catches every exception and returns `None`, and returns the parsed body
only when it is truthy and its `appid` field compares equal to the
requested id (`if data and data.get('appid') == app_id`).  A non-dict
body makes `.get` raise `AttributeError`, which is also caught. -/
def get_steamspy_data (app_id : Int) (world : TransportResult) : Option Json :=
  match world with
  | .err => none
  | .resp status parsed =>
    if 400 ≤ status ∧ status < 600 then none
    else
      match parsed with
      | none => none
      | some data =>
        if jsonTruthy data then
          match data with
          | .obj kvs =>
            match assocGet kvs "appid" with
            | some v => if pyEqInt v app_id then some data else none
            | none => none
          | _ => none
        else none

/-- What one iteration of the scan loop in a `find_steam_app_id` body does
with one `external_games` entry: `yield n` executes `return n`, `skip`
executes `continue` (or falls through to the next entry), `raise`
propagates an exception out of the loop. -/
inductive EntryStep where
  | yield : Int → EntryStep
  | skip : EntryStep
  | raise : PyErr → EntryStep
deriving DecidableEq

namespace EnrichScript

/-- Loop body of `find_steam_app_id` in `enrich_igdb_with_steam.py`:
`if external_game.get('external_game_source')['name'] == 'Steam':` — the
subscript is applied to whatever `.get` returned, so a missing or
non-dict `external_game_source` raises `TypeError`, and a dict without
`'name'` raises `KeyError`.  On a match, `int(external_game.get('uid', 0))`
is returned; `ValueError`/`TypeError` from the conversion is caught and
the loop continues.  A non-dict element makes `.get` itself raise
`AttributeError`. -/
def entryStep (external_game : Json) : EntryStep :=
  match external_game with
  | .obj kvs =>
    (match (assocGet kvs "external_game_source").getD .null with
     | .obj skvs =>
       match assocGet skvs "name" with
       | some nv =>
         if jsonEqStr nv "Steam" then
           match pyToInt ((assocGet kvs "uid").getD (.num 0)) with
           | some n => .yield n
           | none => .skip
         else .skip
       | none => .raise .keyError
     | _ => .raise .typeError)
  | _ => .raise .attributeError

/-- The `for external_game in external_games:` loop of the enrich script's
`find_steam_app_id`, dispatching on the body's outcome for each entry. -/
def findGo : List Json → Except PyErr (Option Int)
  | [] => .ok none
  | e :: rest =>
    match entryStep e with
    | .yield n => .ok (some n)
    | .skip => findGo rest
    | .raise err => .error err

/-- `find_steam_app_id(igdb_game)` from `enrich_igdb_with_steam.py`:
iterates `igdb_game.get('external_games', [])` and returns the first
Steam uid convertible to an integer, `None` when the scan finds none. -/
def find_steam_app_id (igdb_game : Game) : Except PyErr (Option Int) :=
  match iterElems ((assocGet igdb_game "external_games").getD (.arr [])) with
  | .error e => .error e
  | .ok es => findGo es

/-- One iteration of the loop in `enrich_igdb_with_steam_data`: copy the
record, extract the Steam app id, and fetch only when the id is truthy
(`if steam_app_id and steam_app_id in steam_apps_dict` — `0` is falsy)
and present in the Steam index.  Returns the output record, the ids
appended to `failed_steam_ids`, and the ids passed to the fetcher (each
fetch is followed by one pacing delay, so the third component also counts
the delays this record incurs). -/
def enrichStep (steam_apps : List Int) (fetch : Int → Option Json) (g : Game) :
    Except PyErr (Game × List Int × List Int) :=
  match find_steam_app_id g with
  | .error e => .error e
  | .ok none => .ok (g, [], [])
  | .ok (some x) =>
    if x ≠ 0 ∧ x ∈ steam_apps then
      match fetch x with
      | some d =>
        if jsonTruthy d then .ok (assocSet g "steamInfo" d, [], [x])
        else .ok (g, [x], [x])
      | none => .ok (g, [x], [x])
    else .ok (g, [], [])

/-- `enrich_igdb_with_steam_data(igdb_games, steam_apps_dict)`: processes
the records in order, accumulating the output list, the failed Steam ids
(in append order) and the trace of fetched ids.  An exception from
`find_steam_app_id` propagates and aborts the run. -/
def enrich_igdb_with_steam_data (steam_apps : List Int) (fetch : Int → Option Json) :
    List Game → Except PyErr (List Game × List Int × List Int)
  | [] => .ok ([], [], [])
  | g :: gs =>
    match enrichStep steam_apps fetch g with
    | .error e => .error e
    | .ok (g', f1, t1) =>
      match enrich_igdb_with_steam_data steam_apps fetch gs with
      | .error e => .error e
      | .ok (gs', f2, t2) => .ok (g' :: gs', f1 ++ f2, t1 ++ t2)

/-- Tail of `enrich_igdb_with_steam_data`: `failed_steamspy_fetches.json`
is written exactly when `failed_steam_ids` is non-empty
(`if failed_steam_ids:`).  `.ok (some c)` means the document is written
with content `c`; `.ok none` means it is not written. -/
def failureFileOutput (steam_apps : List Int) (fetch : Int → Option Json)
    (igdb_games : List Game) : Except PyErr (Option (List Int)) :=
  match enrich_igdb_with_steam_data steam_apps fetch igdb_games with
  | .error e => .error e
  | .ok (_, failed, _) => .ok (if failed.isEmpty then none else some failed)

end EnrichScript

namespace RetryScript

/-- Loop body of `find_steam_app_id` in `retry_failed_steamspy.py`:
`external_game.get('external_game_source', {}).get('name') == 'Steam'` —
a missing source falls back to `{}` and a missing name to `None`, both
recovered; but a source present with a non-dict value still raises
`AttributeError` on the second `.get`, as does a non-dict element. -/
def entryStep (external_game : Json) : EntryStep :=
  match external_game with
  | .obj kvs =>
    (match (assocGet kvs "external_game_source").getD (.obj []) with
     | .obj skvs =>
       if jsonEqStr ((assocGet skvs "name").getD .null) "Steam" then
         match pyToInt ((assocGet kvs "uid").getD (.num 0)) with
         | some n => .yield n
         | none => .skip
       else .skip
     | _ => .raise .attributeError)
  | _ => .raise .attributeError

/-- The `for external_game in external_games:` loop of the retry script's
`find_steam_app_id`, dispatching on the body's outcome for each entry. -/
def findGo : List Json → Except PyErr (Option Int)
  | [] => .ok none
  | e :: rest =>
    match entryStep e with
    | .yield n => .ok (some n)
    | .skip => findGo rest
    | .raise err => .error err

/-- `find_steam_app_id(igdb_game)` from `retry_failed_steamspy.py`. -/
def find_steam_app_id (igdb_game : Game) : Except PyErr (Option Int) :=
  match iterElems ((assocGet igdb_game "external_games").getD (.arr [])) with
  | .error e => .error e
  | .ok es => findGo es

/-- The pre-pass of `retry_failed_fetches`: build
`steam_id_to_game_index`, mapping each truthy extracted Steam id to the
index of the game it came from (`if steam_app_id:` — id `0` is falsy and
never recorded; a later game with the same id overwrites the entry). -/
def buildLookup : List Game → Nat → List (Int × Nat) →
    Except PyErr (List (Int × Nat))
  | [], _, m => .ok m
  | g :: gs, i, m =>
    match find_steam_app_id g with
    | .error e => .error e
    | .ok r =>
      buildLookup gs (i + 1)
        (match r with
         | some x => if x ≠ 0 then assocSet m x i else m
         | none => m)

/-- Main loop of `retry_failed_fetches`: for each failed id in order,
a lookup miss goes straight to `still_failed` (no fetch, no delay); a hit
triggers one fetch (recorded in the trace, third component) followed by
the pacing delay, updating `enriched_games[game_index]['steamInfo']` on a
truthy payload and appending to `still_failed` otherwise. -/
def retryLoop (fetch : Int → Option Json) (lookup : List (Int × Nat)) :
    List Int → List Game → List Int → List Int →
    List Game × List Int × List Int
  | [], games, still, trace => (games, still, trace)
  | x :: rest, games, still, trace =>
    match assocGet lookup x with
    | some gi =>
      match fetch x with
      | some d =>
        if jsonTruthy d then
          retryLoop fetch lookup rest
            (games.set gi (assocSet (games.getD gi []) "steamInfo" d))
            still (trace ++ [x])
        else retryLoop fetch lookup rest games (still ++ [x]) (trace ++ [x])
      | none => retryLoop fetch lookup rest games (still ++ [x]) (trace ++ [x])
    | none => retryLoop fetch lookup rest games (still ++ [x]) trace

/-- `retry_failed_fetches(failed_steam_ids, enriched_games)`: the lookup
pre-pass followed by the retry loop.  Returns the updated games, the
`still_failed` list and the trace of fetched ids. -/
def retry_failed_fetches (fetch : Int → Option Json) (failed_steam_ids : List Int)
    (enriched_games : List Game) :
    Except PyErr (List Game × List Int × List Int) :=
  match buildLookup enriched_games 0 [] with
  | .error e => .error e
  | .ok lookup => .ok (retryLoop fetch lookup failed_steam_ids enriched_games [] [])

/-- `main()` of `retry_failed_steamspy.py`, restricted to its effect on
`failed_steamspy_fetches.json`: an empty loaded failure list or an empty
enriched dataset returns early without writing; otherwise
`save_still_failed(still_failed)` is called unconditionally, writing the
document even when `still_failed` is empty.  `.ok (some c)` means the
document is written with content `c`. -/
def mainFailureFileOutput (fetch : Int → Option Json) (failed_steam_ids : List Int)
    (enriched_games : List Game) : Except PyErr (Option (List Int)) :=
  if failed_steam_ids.isEmpty then .ok none
  else if enriched_games.isEmpty then .ok none
  else
    match retry_failed_fetches fetch failed_steam_ids enriched_games with
    | .error e => .error e
    | .ok (_, still, _) => .ok (some still)

end RetryScript


/-! ### Dictionary lemmas -/

theorem assocGet_assocSet_self {α β : Type} [DecidableEq α] (m : List (α × β)) (k : α) (v : β) :
    assocGet (assocSet m k v) k = some v := by
  induction m with
  | nil => simp [assocGet, assocSet]
  | cons p rest ih =>
    obtain ⟨k', v'⟩ := p
    by_cases h : k' = k
    · subst h; simp [assocGet, assocSet]
    · simp [assocGet, assocSet, h, ih]

theorem assocGet_assocSet_ne {α β : Type} [DecidableEq α] (m : List (α × β)) (k k' : α)
    (v : β) (h : k' ≠ k) : assocGet (assocSet m k v) k' = assocGet m k' := by
  have hkk' : ¬(k = k') := fun h' => h h'.symm
  induction m with
  | nil => simp [assocGet, assocSet, hkk']
  | cons p rest ih =>
    obtain ⟨k₀, v₀⟩ := p
    by_cases h0 : k₀ = k
    · subst h0
      simp [assocGet, assocSet, hkk']
    · simp [assocGet, assocSet, h0, ih]

theorem assocSet_assocSet_self {α β : Type} [DecidableEq α] (m : List (α × β)) (k : α)
    (v w : β) : assocSet (assocSet m k v) k w = assocSet m k w := by
  induction m with
  | nil => simp [assocSet]
  | cons p rest ih =>
    obtain ⟨k', v'⟩ := p
    by_cases h : k' = k
    · subst h; simp [assocSet]
    · simp [assocSet, h, ih]

theorem assocGet_ne_nil {α β : Type} [DecidableEq α] {m : List (α × β)} {k : α} {v : β}
    (h : assocGet m k = some v) : m ≠ [] := by
  cases m with
  | nil => simp [assocGet] at h
  | cons p rest => simp

/-! ### Lemmas about the enrich-script extractor -/

theorem findGo_cons (e : Json) (rest : List Json) :
    EnrichScript.findGo (e :: rest) =
      (match EnrichScript.entryStep e with
       | .yield n => Except.ok (some n)
       | .skip => EnrichScript.findGo rest
       | .raise err => Except.error err) := rfl

theorem findGo_append_skip {pre : List Json} (l : List Json)
    (h : ∀ p ∈ pre, EnrichScript.entryStep p = .skip) :
    EnrichScript.findGo (pre ++ l) = EnrichScript.findGo l := by
  induction pre with
  | nil => rfl
  | cons e rest ih =>
    have he : EnrichScript.entryStep e = .skip := h e (by simp)
    rw [List.cons_append, findGo_cons, he]
    exact ih fun p hp => h p (by simp [hp])

/-- First-match semantics of the enrich script's `find_steam_app_id`:
after a prefix of skipped entries, the first entry whose body returns
wins, whatever follows it. -/
theorem find_first_yield {g : Game} {pre post : List Json} {e : Json} {n : Int}
    (hg : assocGet g "external_games" = some (.arr (pre ++ e :: post)))
    (hpre : ∀ p ∈ pre, EnrichScript.entryStep p = .skip)
    (he : EnrichScript.entryStep e = .yield n) :
    EnrichScript.find_steam_app_id g = .ok (some n) := by
  unfold EnrichScript.find_steam_app_id
  rw [hg]
  show EnrichScript.findGo (pre ++ e :: post) = .ok (some n)
  rw [findGo_append_skip _ hpre, findGo_cons, he]

/-- A `"Steam"`-matching entry yields exactly what `int()` makes of its
`uid` field (default `0`): the integer on success, a skip on
`ValueError`/`TypeError`. -/
theorem entryStep_of_matching {kvs skvs : List (String × Json)} {nv : Json}
    (hsrc : assocGet kvs "external_game_source" = some (.obj skvs))
    (hname : assocGet skvs "name" = some nv)
    (hsteam : jsonEqStr nv "Steam" = true) :
    EnrichScript.entryStep (.obj kvs) =
      (match pyToInt ((assocGet kvs "uid").getD (.num 0)) with
       | some n => .yield n
       | none => .skip) := by
  dsimp only [EnrichScript.entryStep]
  rw [hsrc]
  dsimp only [Option.getD]
  rw [hname]
  dsimp only
  rw [hsteam]
  simp

/-! ### The fetcher (`get_steamspy_data`) -/

/-- The parsed body echoes the requested id: a dict whose `appid` field
compares equal (Python `==`) to `app_id`.  Such a dict is non-empty and
hence truthy. -/
def payloadEchoes (d : Json) (x : Int) : Bool :=
  match d with
  | .obj kvs =>
    match assocGet kvs "appid" with
    | some v => pyEqInt v x
    | none => false
  | _ => false

/-- C3 (amended): `get_steamspy_data` returns a payload exactly when the
transport succeeds, the response status is one for which
`raise_for_status` does not raise — below 400 or at least 600, not only
the 2xx range — the body parses, and the parsed dict echoes the
requested identifier; the payload returned is that parsed body.  A
payload echoing a different identifier or omitting the field yields
`None`, and every failure path is a caught exception, so the function
never raises (it is total by construction in this model). -/
theorem claim_fetch_validation_iff (app_id : Int) (world : TransportResult) (d : Json) :
    get_steamspy_data app_id world = some d ↔
      ∃ status, world = .resp status (some d) ∧ (status < 400 ∨ 600 ≤ status) ∧
        payloadEchoes d app_id = true := by
  constructor
  · intro h
    cases world with
    | err => exact absurd h (by simp [get_steamspy_data])
    | resp status parsed =>
      refine ⟨status, ?_⟩
      simp only [get_steamspy_data] at h
      by_cases hs : 400 ≤ status ∧ status < 600
      · rw [if_pos hs] at h; exact absurd h (by simp)
      · rw [if_neg hs] at h
        cases parsed with
        | none => exact absurd h (by simp)
        | some data =>
          dsimp only at h
          by_cases ht : jsonTruthy data = true
          · rw [if_pos ht] at h
            cases data with
            | obj kvs =>
              dsimp only at h
              cases hap : assocGet kvs "appid" with
              | some v =>
                rw [hap] at h
                dsimp only at h
                by_cases hv : pyEqInt v app_id = true
                · rw [if_pos hv] at h
                  obtain rfl : Json.obj kvs = d := by injection h
                  refine ⟨rfl, by omega, ?_⟩
                  dsimp only [payloadEchoes]
                  rw [hap]
                  exact hv
                · rw [if_neg hv] at h; exact absurd h (by simp)
              | none => rw [hap] at h; exact absurd h (by simp)
            | null => simp at h
            | bool b => simp at h
            | num n => simp at h
            | str s => simp at h
            | arr xs => simp at h
          · rw [if_neg ht] at h; exact absurd h (by simp)
  · rintro ⟨status, rfl, hlt, he⟩
    cases d with
    | obj kvs =>
      dsimp only [payloadEchoes] at he
      cases hap : assocGet kvs "appid" with
      | some v =>
        rw [hap] at he
        have he' : pyEqInt v app_id = true := he
        have hne : kvs ≠ [] := assocGet_ne_nil hap
        have ht : jsonTruthy (Json.obj kvs) = true := by
          simp [jsonTruthy, hne]
        simp only [get_steamspy_data]
        rw [if_neg (show ¬(400 ≤ status ∧ status < 600) by omega)]
        simp [ht, hap, he']
      | none => rw [hap] at he; exact absurd he (by simp)
    | null => exact absurd he (by simp [payloadEchoes])
    | bool b => exact absurd he (by simp [payloadEchoes])
    | num n => exact absurd he (by simp [payloadEchoes])
    | str s => exact absurd he (by simp [payloadEchoes])
    | arr xs => exact absurd he (by simp [payloadEchoes])

/-- C3 (counterexample to the claim as stated): a 304 response — not a
2xx status — whose body parses and echoes the requested identifier is
returned as a payload, because `raise_for_status` raises only for
statuses in the `400 ≤ status < 600` error bands. -/
theorem claim_fetch_non2xx_counterexample :
    get_steamspy_data 42
        (.resp 304 (some (Json.obj [("appid", Json.num 42)])))
      = some (Json.obj [("appid", Json.num 42)]) ∧
    ¬(200 ≤ 304 ∧ 304 < 300) := ⟨rfl, by omega⟩

/-- C2: the spec promises that malformed or missing cross-reference data
is recovered locally and never surfaces as an error, and the retry
script's extractor indeed recovers (`.get('external_game_source', {})`);
but on a record whose cross-reference entry has no source data at all,
the enrich script's extractor raises `TypeError` (it subscripts the
`None` returned by `.get('external_game_source')`) — evidence that the
enrich-side code, not the claim, is at fault. -/
theorem claim_extract_totality_divergence :
    EnrichScript.find_steam_app_id
        [("external_games", Json.arr [Json.obj []])] = .error .typeError ∧
    RetryScript.find_steam_app_id
        [("external_games", Json.arr [Json.obj []])] = .ok none :=
  ⟨rfl, rfl⟩

/-- C6: the enrich script's `find_steam_app_id` scans the
`external_games` sequence in order and returns the integer conversion of
the `uid` of the first entry whose source name equals `"Steam"` and whose
`uid` converts; entries the loop body skips — including matching entries
whose `uid` does not convert to an integer (second conjunct) — leave
scanning to continue, and entries after the first hit are ignored, so a
record with two matching entries returns the first one's identifier.
Determinism is inherent: the extractor is a pure function of the record. -/
theorem claim_extract_first_match_wins :
    (∀ (g : Game) (pre post : List Json) (kvs skvs : List (String × Json))
       (nv : Json) (n : Int),
      assocGet g "external_games" = some (.arr (pre ++ .obj kvs :: post)) →
      (∀ p ∈ pre, EnrichScript.entryStep p = .skip) →
      assocGet kvs "external_game_source" = some (.obj skvs) →
      assocGet skvs "name" = some nv →
      jsonEqStr nv "Steam" = true →
      pyToInt ((assocGet kvs "uid").getD (.num 0)) = some n →
      EnrichScript.find_steam_app_id g = .ok (some n)) ∧
    (∀ (kvs skvs : List (String × Json)) (nv : Json),
      assocGet kvs "external_game_source" = some (.obj skvs) →
      assocGet skvs "name" = some nv →
      jsonEqStr nv "Steam" = true →
      pyToInt ((assocGet kvs "uid").getD (.num 0)) = none →
      EnrichScript.entryStep (.obj kvs) = .skip) := by
  constructor
  · intro g pre post kvs skvs nv n hg hpre hsrc hname hsteam hu
    exact find_first_yield hg hpre
      (by rw [entryStep_of_matching hsrc hname hsteam, hu])
  · intro kvs skvs nv hsrc hname hsteam hu
    rw [entryStep_of_matching hsrc hname hsteam, hu]

/-! ### The enrichment driver -/

theorem enrichStep_no_fetch {sa : List Int} {fetch : Int → Option Json} {g : Game}
    (h : EnrichScript.find_steam_app_id g = .ok none ∨
      ∃ x, EnrichScript.find_steam_app_id g = .ok (some x) ∧ ¬(x ≠ 0 ∧ x ∈ sa)) :
    EnrichScript.enrichStep sa fetch g = .ok (g, [], []) := by
  rcases h with h | ⟨x, h, hx⟩
  · simp [EnrichScript.enrichStep, h]
  · simp [EnrichScript.enrichStep, h, hx]

theorem enrichStep_fetch_fail {sa : List Int} {fetch : Int → Option Json} {g : Game} {x : Int}
    (hf : EnrichScript.find_steam_app_id g = .ok (some x))
    (h0 : x ≠ 0) (hmem : x ∈ sa)
    (hfetch : fetch x = none ∨ ∃ d, fetch x = some d ∧ jsonTruthy d = false) :
    EnrichScript.enrichStep sa fetch g = .ok (g, [x], [x]) := by
  rcases hfetch with hfetch | ⟨d, hfetch, hd⟩
  · simp [EnrichScript.enrichStep, hf, h0, hmem, hfetch]
  · simp [EnrichScript.enrichStep, hf, h0, hmem, hfetch, hd]

theorem enrichStep_fetch_ok {sa : List Int} {fetch : Int → Option Json} {g : Game}
    {x : Int} {d : Json}
    (hf : EnrichScript.find_steam_app_id g = .ok (some x))
    (h0 : x ≠ 0) (hmem : x ∈ sa)
    (hfetch : fetch x = some d) (hd : jsonTruthy d = true) :
    EnrichScript.enrichStep sa fetch g = .ok (assocSet g "steamInfo" d, [], [x]) := by
  simp [EnrichScript.enrichStep, hf, h0, hmem, hfetch, hd]

theorem enrichStep_ok_cases {sa : List Int} {fetch : Int → Option Json} {g g' : Game}
    {fl tl : List Int}
    (h : EnrichScript.enrichStep sa fetch g = .ok (g', fl, tl)) :
    (g' = g ∧ fl = [] ∧ tl = []) ∨
    ∃ x, x ≠ 0 ∧ x ∈ sa ∧ EnrichScript.find_steam_app_id g = .ok (some x) ∧ tl = [x] ∧
      ((∃ d, fetch x = some d ∧ jsonTruthy d = true ∧
          g' = assocSet g "steamInfo" d ∧ fl = []) ∨
       (g' = g ∧ fl = [x] ∧
         (fetch x = none ∨ ∃ d, fetch x = some d ∧ jsonTruthy d = false))) := by
  cases hfind : EnrichScript.find_steam_app_id g with
  | error e =>
    unfold EnrichScript.enrichStep at h
    rw [hfind] at h
    simp at h
  | ok r =>
    cases r with
    | none =>
      have hs := @enrichStep_no_fetch sa fetch g (Or.inl hfind)
      rw [hs] at h
      obtain ⟨rfl, rfl, rfl⟩ : g = g' ∧ ([] : List Int) = fl ∧ ([] : List Int) = tl := by
        simpa using h
      exact Or.inl ⟨rfl, rfl, rfl⟩
    | some x =>
      by_cases hc : x ≠ 0 ∧ x ∈ sa
      · cases hfetch : fetch x with
        | none =>
          have hs := enrichStep_fetch_fail hfind hc.1 hc.2 (Or.inl hfetch)
          rw [hs] at h
          obtain ⟨rfl, rfl, rfl⟩ : g = g' ∧ [x] = fl ∧ [x] = tl := by
            simpa using h
          exact Or.inr ⟨x, hc.1, hc.2, rfl, rfl,
            Or.inr ⟨rfl, rfl, Or.inl hfetch⟩⟩
        | some d =>
          cases ht : jsonTruthy d with
          | true =>
            have hs := enrichStep_fetch_ok hfind hc.1 hc.2 hfetch ht
            rw [hs] at h
            obtain ⟨rfl, rfl, rfl⟩ :
                assocSet g "steamInfo" d = g' ∧ ([] : List Int) = fl ∧ [x] = tl := by
              simpa using h
            exact Or.inr ⟨x, hc.1, hc.2, rfl, rfl,
              Or.inl ⟨d, hfetch, ht, rfl, rfl⟩⟩
          | false =>
            have hs := enrichStep_fetch_fail hfind hc.1 hc.2 (Or.inr ⟨d, hfetch, ht⟩)
            rw [hs] at h
            obtain ⟨rfl, rfl, rfl⟩ : g = g' ∧ [x] = fl ∧ [x] = tl := by
              simpa using h
            exact Or.inr ⟨x, hc.1, hc.2, rfl, rfl,
              Or.inr ⟨rfl, rfl, Or.inr ⟨d, hfetch, ht⟩⟩⟩
      · have hs := @enrichStep_no_fetch sa fetch g (Or.inr ⟨x, hfind, hc⟩)
        rw [hs] at h
        obtain ⟨rfl, rfl, rfl⟩ : g = g' ∧ ([] : List Int) = fl ∧ ([] : List Int) = tl := by
          simpa using h
        exact Or.inl ⟨rfl, rfl, rfl⟩

theorem enrich_run_ok {sa : List Int} {fetch : Int → Option Json} {gs out : List Game}
    {f t : List Int}
    (h : EnrichScript.enrich_igdb_with_steam_data sa fetch gs = .ok (out, f, t)) :
    out.length = gs.length ∧
    ∀ i, i < gs.length → ∃ fl tl,
      EnrichScript.enrichStep sa fetch (gs.getD i []) = .ok (out.getD i [], fl, tl) ∧
      (∀ x ∈ fl, x ∈ f) ∧ (∀ x ∈ tl, x ∈ t) := by
  induction gs generalizing out f t with
  | nil =>
    obtain ⟨rfl, rfl, rfl⟩ : ([] : List Game) = out ∧ ([] : List Int) = f ∧ ([] : List Int) = t := by
      simpa [EnrichScript.enrich_igdb_with_steam_data] using h
    exact ⟨rfl, fun i hi => absurd hi (by simp)⟩
  | cons g gs ih =>
    unfold EnrichScript.enrich_igdb_with_steam_data at h
    cases hstep : EnrichScript.enrichStep sa fetch g with
    | error e => rw [hstep] at h; simp at h
    | ok res =>
      obtain ⟨g', f1, t1⟩ := res
      rw [hstep] at h
      cases hrec : EnrichScript.enrich_igdb_with_steam_data sa fetch gs with
      | error e => rw [hrec] at h; simp at h
      | ok res2 =>
        obtain ⟨gs', f2, t2⟩ := res2
        rw [hrec] at h
        obtain ⟨rfl, rfl, rfl⟩ : g' :: gs' = out ∧ f1 ++ f2 = f ∧ t1 ++ t2 = t := by
          simpa using h
        obtain ⟨hlen, hidx⟩ := ih hrec
        refine ⟨by simpa using hlen, ?_⟩
        intro i hi
        cases i with
        | zero =>
          exact ⟨f1, t1, by simpa using hstep,
            fun x hx => List.mem_append.mpr (Or.inl hx),
            fun x hx => List.mem_append.mpr (Or.inl hx)⟩
        | succ j =>
          obtain ⟨fl, tl, hs, hf, ht⟩ := hidx j (by simpa using hi)
          exact ⟨fl, tl, by simpa using hs,
            fun x hx => List.mem_append.mpr (Or.inr (hf x hx)),
            fun x hx => List.mem_append.mpr (Or.inr (ht x hx))⟩

theorem enrich_trace_spec {sa : List Int} {fetch : Int → Option Json} {gs out : List Game}
    {f t : List Int}
    (h : EnrichScript.enrich_igdb_with_steam_data sa fetch gs = .ok (out, f, t)) :
    ∀ x ∈ t, x ≠ 0 ∧ x ∈ sa := by
  induction gs generalizing out f t with
  | nil =>
    obtain ⟨-, -, rfl⟩ : ([] : List Game) = out ∧ ([] : List Int) = f ∧ ([] : List Int) = t := by
      simpa [EnrichScript.enrich_igdb_with_steam_data] using h
    simp
  | cons g gs ih =>
    unfold EnrichScript.enrich_igdb_with_steam_data at h
    cases hstep : EnrichScript.enrichStep sa fetch g with
    | error e => rw [hstep] at h; simp at h
    | ok res =>
      obtain ⟨g', f1, t1⟩ := res
      rw [hstep] at h
      cases hrec : EnrichScript.enrich_igdb_with_steam_data sa fetch gs with
      | error e => rw [hrec] at h; simp at h
      | ok res2 =>
        obtain ⟨gs', f2, t2⟩ := res2
        rw [hrec] at h
        obtain ⟨-, -, rfl⟩ : g' :: gs' = out ∧ f1 ++ f2 = f ∧ t1 ++ t2 = t := by
          simpa using h
        intro x hx
        rcases List.mem_append.mp hx with hx1 | hx2
        · rcases enrichStep_ok_cases hstep with ⟨-, -, rfl⟩ | ⟨y, hy0, hysa, -, rfl, -⟩
          · simp at hx1
          · obtain rfl : x = y := by simpa using hx1
            exact ⟨hy0, hysa⟩
        · exact ih hrec x hx2

/-- Every `external_games` entry of the record can be scanned by the
enrich script's loop body without raising an exception — the shape the
spec's data model (§3) requires of cross-reference entries. -/
def entryScanSafe (e : Json) : Bool :=
  match EnrichScript.entryStep e with
  | .raise _ => false
  | _ => true

/-- The record either has no `external_games` field or it is an array all
of whose entries scan safely, so the enrich extractor cannot raise. -/
def gameScanSafe (g : Game) : Bool :=
  match assocGet g "external_games" with
  | none => true
  | some (.arr es) => es.all entryScanSafe
  | some _ => false

theorem findGo_ok_of_all_safe {es : List Json} (h : ∀ e ∈ es, entryScanSafe e = true) :
    ∃ r, EnrichScript.findGo es = .ok r := by
  induction es with
  | nil => exact ⟨none, rfl⟩
  | cons e rest ih =>
    have he := h e (by simp)
    unfold entryScanSafe at he
    rw [findGo_cons]
    cases hstep : EnrichScript.entryStep e with
    | yield n => exact ⟨some n, rfl⟩
    | skip =>
      obtain ⟨r, hr⟩ := ih fun p hp => h p (by simp [hp])
      exact ⟨r, hr⟩
    | raise err => rw [hstep] at he; simp at he

theorem find_ok_of_scanSafe {g : Game} (h : gameScanSafe g = true) :
    ∃ r, EnrichScript.find_steam_app_id g = .ok r := by
  unfold gameScanSafe at h
  unfold EnrichScript.find_steam_app_id
  cases hg : assocGet g "external_games" with
  | none => exact ⟨none, rfl⟩
  | some j =>
    rw [hg] at h
    cases j with
    | arr es =>
      have hall : ∀ e ∈ es, entryScanSafe e = true := by
        intro e he
        exact List.all_eq_true.mp (by simpa using h) e he
      obtain ⟨r, hr⟩ := findGo_ok_of_all_safe hall
      exact ⟨r, hr⟩
    | null => simp at h
    | bool b => simp at h
    | num n => simp at h
    | str s => simp at h
    | obj kvs => simp at h

theorem enrichStep_total {sa : List Int} {fetch : Int → Option Json} {g : Game} {r : Option Int}
    (hr : EnrichScript.find_steam_app_id g = .ok r) :
    ∃ res, EnrichScript.enrichStep sa fetch g = .ok res := by
  cases r with
  | none => exact ⟨(g, [], []), @enrichStep_no_fetch sa fetch g (Or.inl hr)⟩
  | some x =>
    by_cases hc : x ≠ 0 ∧ x ∈ sa
    · cases hf : fetch x with
      | none => exact ⟨(g, [x], [x]), enrichStep_fetch_fail hr hc.1 hc.2 (Or.inl hf)⟩
      | some d =>
        cases ht : jsonTruthy d with
        | true =>
          exact ⟨(assocSet g "steamInfo" d, [], [x]), enrichStep_fetch_ok hr hc.1 hc.2 hf ht⟩
        | false =>
          exact ⟨(g, [x], [x]), enrichStep_fetch_fail hr hc.1 hc.2 (Or.inr ⟨d, hf, ht⟩)⟩
    · exact ⟨(g, [], []), @enrichStep_no_fetch sa fetch g (Or.inr ⟨x, hr, hc⟩)⟩

theorem enrich_run_total {sa : List Int} {fetch : Int → Option Json} {gs : List Game}
    (h : ∀ g ∈ gs, gameScanSafe g = true) :
    ∃ res, EnrichScript.enrich_igdb_with_steam_data sa fetch gs = .ok res := by
  induction gs with
  | nil => exact ⟨([], [], []), rfl⟩
  | cons g rest ih =>
    obtain ⟨r, hr⟩ := find_ok_of_scanSafe (h g (by simp))
    obtain ⟨⟨g', f1, t1⟩, hs⟩ := @enrichStep_total sa fetch g r hr
    obtain ⟨⟨gs', f2, t2⟩, hrec⟩ := ih fun p hp => h p (by simp [hp])
    refine ⟨(g' :: gs', f1 ++ f2, t1 ++ t2), ?_⟩
    unfold EnrichScript.enrich_igdb_with_steam_data
    rw [hs, hrec]

/-- C5: on a sequence of N primary records (records shaped as the spec's
data model requires, so that extraction cannot raise), the enrichment
driver returns a sequence of exactly N records in the same order, every
input record appearing exactly once at its own position — unchanged or
with the `steamInfo` enrichment field set — regardless of which fetches
succeed or fail (the fetcher is universally quantified). -/
theorem claim_enrich_order_preservation {sa : List Int} {fetch : Int → Option Json}
    {gs : List Game} (h : ∀ g ∈ gs, gameScanSafe g = true) :
    ∃ out f t, EnrichScript.enrich_igdb_with_steam_data sa fetch gs = .ok (out, f, t) ∧
      out.length = gs.length ∧
      ∀ i, i < gs.length →
        out.getD i [] = gs.getD i [] ∨
        ∃ d, out.getD i [] = assocSet (gs.getD i []) "steamInfo" d := by
  obtain ⟨⟨out, f, t⟩, hrun⟩ := @enrich_run_total sa fetch gs h
  obtain ⟨hlen, hidx⟩ := enrich_run_ok hrun
  refine ⟨out, f, t, hrun, hlen, ?_⟩
  intro i hi
  obtain ⟨fl, tl, hstep, -, -⟩ := hidx i hi
  rcases enrichStep_ok_cases hstep with ⟨hg, -, -⟩ | ⟨x, -, -, -, -, hbr⟩
  · exact Or.inl hg
  · rcases hbr with ⟨d, -, -, hg, -⟩ | ⟨hg, -, -⟩
    · exact Or.inr ⟨d, hg⟩
    · exact Or.inl hg

/-- C4: when the fetcher was actually invoked for identifier `x` during
the run (`x` is in the fetch trace — in particular `x` was extracted from
some record, is truthy and is in the Steam index) and it failed, then for
any record whose extracted identifier is `x` and which had no `steamInfo`
field on input, `x` appears in the returned failed-identifier list and
the corresponding output record still has no `steamInfo` field (no
placeholder is written). -/
theorem claim_no_data_loss_on_failure {sa : List Int} {fetch : Int → Option Json}
    {gs out : List Game} {f t : List Int} {x : Int} (i : Nat)
    (hrun : EnrichScript.enrich_igdb_with_steam_data sa fetch gs = .ok (out, f, t))
    (hi : i < gs.length)
    (hfind : EnrichScript.find_steam_app_id (gs.getD i []) = .ok (some x))
    (hsa : x ∈ sa)
    (hfail : fetch x = none)
    (htr : x ∈ t)
    (hclean : assocGet (gs.getD i []) "steamInfo" = none) :
    x ∈ f ∧ assocGet (out.getD i []) "steamInfo" = none := by
  have h0 : x ≠ 0 := (enrich_trace_spec hrun x htr).1
  have hstep := @enrichStep_fetch_fail sa fetch (gs.getD i []) x hfind h0 hsa (Or.inl hfail)
  obtain ⟨-, hidx⟩ := enrich_run_ok hrun
  obtain ⟨fl, tl, hstep', hf, -⟩ := hidx i hi
  rw [hstep] at hstep'
  obtain ⟨hout, hfl, -⟩ : gs.getD i [] = out.getD i [] ∧ [x] = fl ∧ [x] = tl := by
    simpa using hstep'
  constructor
  · exact hf x (by rw [← hfl]; simp)
  · rw [← hout]; exact hclean

/-- C7: a record for which extraction finds no identifier, or whose
identifier is absent from the Steam index, never triggers a fetch and
incurs no pacing delay (its step has an empty fetch/delay trace), and the
record is passed through to the output unchanged. -/
theorem claim_secondary_index_gating {sa : List Int} {fetch : Int → Option Json}
    {gs out : List Game} {f t : List Int} (i : Nat)
    (hrun : EnrichScript.enrich_igdb_with_steam_data sa fetch gs = .ok (out, f, t))
    (hi : i < gs.length)
    (hcase : EnrichScript.find_steam_app_id (gs.getD i []) = .ok none ∨
      ∃ x, EnrichScript.find_steam_app_id (gs.getD i []) = .ok (some x) ∧ x ∉ sa) :
    EnrichScript.enrichStep sa fetch (gs.getD i []) = .ok (gs.getD i [], [], []) ∧
    out.getD i [] = gs.getD i [] := by
  have hstep : EnrichScript.enrichStep sa fetch (gs.getD i []) = .ok (gs.getD i [], [], []) := by
    refine enrichStep_no_fetch ?_
    rcases hcase with hnone | ⟨x, hx, hxsa⟩
    · exact Or.inl hnone
    · exact Or.inr ⟨x, hx, fun hc => hxsa hc.2⟩
  refine ⟨hstep, ?_⟩
  obtain ⟨-, hidx⟩ := enrich_run_ok hrun
  obtain ⟨fl, tl, hstep', -, -⟩ := hidx i hi
  rw [hstep] at hstep'
  obtain ⟨hout, -, -⟩ : gs.getD i [] = out.getD i [] ∧ ([] : List Int) = fl ∧ ([] : List Int) = tl := by
    simpa using hstep'
  exact hout.symm

/-! ### The retry driver -/

namespace RetryScript

/-- One retried identifier's fetch succeeds: it is in the pre-built
lookup and the fetcher returns a truthy payload. -/
def succeedsB (fetch : Int → Option Json) (lookup : List (Int × Nat)) (x : Int) : Bool :=
  match assocGet lookup x with
  | some _ =>
    match fetch x with
    | some d => jsonTruthy d
    | none => false
  | none => false

/-- The game position a successful retry of `x` writes to, if any. -/
def writesTo (fetch : Int → Option Json) (lookup : List (Int × Nat)) (x : Int) : Option Nat :=
  match assocGet lookup x with
  | some gi =>
    match fetch x with
    | some d => if jsonTruthy d then some gi else none
    | none => none
  | none => none

/-- The effect of the retry loop on the game list alone: process the ids
in order, applying each successful fetch's `steamInfo` write at its
lookup position. -/
def applyWrites (fetch : Int → Option Json) (lookup : List (Int × Nat)) :
    List Int → List Game → List Game
  | [], games => games
  | x :: rest, games =>
    applyWrites fetch lookup rest
      (match assocGet lookup x, fetch x with
       | some gi, some d =>
         if jsonTruthy d then games.set gi (assocSet (games.getD gi []) "steamInfo" d)
         else games
       | _, _ => games)

end RetryScript

theorem retryLoop_eq (fetch : Int → Option Json) (lookup : List (Int × Nat))
    (ids : List Int) (games : List Game) (still trace : List Int) :
    RetryScript.retryLoop fetch lookup ids games still trace =
      (RetryScript.applyWrites fetch lookup ids games,
       still ++ ids.filter (fun x => !RetryScript.succeedsB fetch lookup x),
       trace ++ ids.filter (fun x => (assocGet lookup x).isSome)) := by
  induction ids generalizing games still trace with
  | nil => simp [RetryScript.retryLoop, RetryScript.applyWrites]
  | cons x rest ih =>
    cases hl : assocGet lookup x with
    | none =>
      have h1 : RetryScript.retryLoop fetch lookup (x :: rest) games still trace =
          RetryScript.retryLoop fetch lookup rest games (still ++ [x]) trace := by
        simp [RetryScript.retryLoop, hl]
      have h2 : RetryScript.applyWrites fetch lookup (x :: rest) games =
          RetryScript.applyWrites fetch lookup rest games := by
        simp [RetryScript.applyWrites, hl]
      rw [h1, ih, h2]
      simp [List.filter_cons, RetryScript.succeedsB, hl]
    | some gi =>
      cases hf : fetch x with
      | none =>
        have h1 : RetryScript.retryLoop fetch lookup (x :: rest) games still trace =
            RetryScript.retryLoop fetch lookup rest games (still ++ [x]) (trace ++ [x]) := by
          simp [RetryScript.retryLoop, hl, hf]
        have h2 : RetryScript.applyWrites fetch lookup (x :: rest) games =
            RetryScript.applyWrites fetch lookup rest games := by
          simp [RetryScript.applyWrites, hl, hf]
        rw [h1, ih, h2]
        simp [List.filter_cons, RetryScript.succeedsB, hl, hf]
      | some d =>
        cases ht : jsonTruthy d with
        | true =>
          have h1 : RetryScript.retryLoop fetch lookup (x :: rest) games still trace =
              RetryScript.retryLoop fetch lookup rest
                (games.set gi (assocSet (games.getD gi []) "steamInfo" d))
                still (trace ++ [x]) := by
            simp [RetryScript.retryLoop, hl, hf, ht]
          have h2 : RetryScript.applyWrites fetch lookup (x :: rest) games =
              RetryScript.applyWrites fetch lookup rest
                (games.set gi (assocSet (games.getD gi []) "steamInfo" d)) := by
            simp [RetryScript.applyWrites, hl, hf, ht]
          rw [h1, ih, h2]
          simp [List.filter_cons, RetryScript.succeedsB, hl, hf, ht]
        | false =>
          have h1 : RetryScript.retryLoop fetch lookup (x :: rest) games still trace =
              RetryScript.retryLoop fetch lookup rest games (still ++ [x]) (trace ++ [x]) := by
            simp [RetryScript.retryLoop, hl, hf, ht]
          have h2 : RetryScript.applyWrites fetch lookup (x :: rest) games =
              RetryScript.applyWrites fetch lookup rest games := by
            simp [RetryScript.applyWrites, hl, hf, ht]
          rw [h1, ih, h2]
          simp [List.filter_cons, RetryScript.succeedsB, hl, hf, ht]

theorem retry_failed_fetches_eq {fetch : Int → Option Json} {failedIds : List Int}
    {games : List Game} {lkp : List (Int × Nat)}
    (hb : RetryScript.buildLookup games 0 [] = .ok lkp) :
    RetryScript.retry_failed_fetches fetch failedIds games =
      .ok (RetryScript.applyWrites fetch lkp failedIds games,
           failedIds.filter (fun x => !RetryScript.succeedsB fetch lkp x),
           failedIds.filter (fun x => (assocGet lkp x).isSome)) := by
  unfold RetryScript.retry_failed_fetches
  rw [hb]
  show Except.ok (RetryScript.retryLoop fetch lkp failedIds games [] []) = _
  rw [retryLoop_eq]
  simp

theorem buildLookup_mem {gs : List Game} {i0 : Nat} {m lkp : List (Int × Nat)}
    (h : RetryScript.buildLookup gs i0 m = .ok lkp) {x : Int} {gi : Nat}
    (hx : assocGet lkp x = some gi) :
    assocGet m x = some gi ∨
    (x ≠ 0 ∧ ∃ k, k < gs.length ∧ gi = i0 + k ∧
      RetryScript.find_steam_app_id (gs.getD k []) = .ok (some x)) := by
  induction gs generalizing i0 m with
  | nil =>
    obtain rfl : m = lkp := by simpa [RetryScript.buildLookup] using h
    exact Or.inl hx
  | cons g rest ih =>
    unfold RetryScript.buildLookup at h
    cases hfg : RetryScript.find_steam_app_id g with
    | error e => rw [hfg] at h; simp at h
    | ok r =>
      rw [hfg] at h
      cases r with
      | none =>
        rcases ih h with hm | ⟨hx0, k, hk, rfl, hfind⟩
        · exact Or.inl hm
        · exact Or.inr ⟨hx0, k + 1, by simpa using hk, by omega, by simpa using hfind⟩
      | some y =>
        have h' : RetryScript.buildLookup rest (i0 + 1)
            (if y ≠ 0 then assocSet m y i0 else m) = Except.ok lkp := h
        by_cases hy : y ≠ 0
        · rw [if_pos hy] at h'
          rcases ih h' with hm | ⟨hx0, k, hk, rfl, hfind⟩
          · by_cases hxy : x = y
            · subst hxy
              rw [assocGet_assocSet_self] at hm
              obtain rfl : i0 = gi := by simpa using hm
              exact Or.inr ⟨hy, 0, by simp, by omega, by simpa using hfg⟩
            · rw [assocGet_assocSet_ne _ _ _ _ hxy] at hm
              exact Or.inl hm
          · exact Or.inr ⟨hx0, k + 1, by simpa using hk, by omega, by simpa using hfind⟩
        · rw [if_neg hy] at h'
          rcases ih h' with hm | ⟨hx0, k, hk, rfl, hfind⟩
          · exact Or.inl hm
          · exact Or.inr ⟨hx0, k + 1, by simpa using hk, by omega, by simpa using hfind⟩

theorem buildLookup_spec {games : List Game} {lkp : List (Int × Nat)}
    (h : RetryScript.buildLookup games 0 [] = .ok lkp) {x : Int} {gi : Nat}
    (hx : assocGet lkp x = some gi) :
    x ≠ 0 ∧ gi < games.length ∧
      RetryScript.find_steam_app_id (games.getD gi []) = .ok (some x) := by
  rcases buildLookup_mem h hx with hm | ⟨h0, k, hk, rfl, hfind⟩
  · simp [assocGet] at hm
  · exact ⟨h0, by simpa using hk, by simpa using hfind⟩

theorem getD_set_self {γ : Type} (l : List γ) (i : Nat) (a dfl : γ) (h : i < l.length) :
    (l.set i a).getD i dfl = a := by
  rw [List.getD_eq_getElem?_getD, List.getElem?_set_self h]
  rfl

theorem getD_set_ne {γ : Type} (l : List γ) {i j : Nat} (a dfl : γ) (h : i ≠ j) :
    (l.set i a).getD j dfl = l.getD j dfl := by
  rw [List.getD_eq_getElem?_getD, List.getElem?_set_ne h, ← List.getD_eq_getElem?_getD]

theorem applyWrites_length (fetch : Int → Option Json) (lookup : List (Int × Nat))
    (ids : List Int) (games : List Game) :
    (RetryScript.applyWrites fetch lookup ids games).length = games.length := by
  induction ids generalizing games with
  | nil => rfl
  | cons x rest ih =>
    cases hl : assocGet lookup x with
    | none => simpa [RetryScript.applyWrites, hl] using ih games
    | some gi =>
      cases hf : fetch x with
      | none => simpa [RetryScript.applyWrites, hl, hf] using ih games
      | some d =>
        cases ht : jsonTruthy d with
        | true =>
          have := ih (games.set gi (assocSet (games.getD gi []) "steamInfo" d))
          simpa [RetryScript.applyWrites, hl, hf, ht] using this
        | false => simpa [RetryScript.applyWrites, hl, hf, ht] using ih games

theorem applyWrites_append (fetch : Int → Option Json) (lookup : List (Int × Nat))
    (a b : List Int) (games : List Game) :
    RetryScript.applyWrites fetch lookup (a ++ b) games =
      RetryScript.applyWrites fetch lookup b (RetryScript.applyWrites fetch lookup a games) := by
  induction a generalizing games with
  | nil => rfl
  | cons x rest ih =>
    show RetryScript.applyWrites fetch lookup (rest ++ b) _ = _
    rw [ih]
    rfl

theorem applyWrites_getD_untouched {fetch : Int → Option Json} {lookup : List (Int × Nat)}
    {ids : List Int} {games : List Game} {gi : Nat}
    (h : ∀ x ∈ ids, RetryScript.writesTo fetch lookup x ≠ some gi) :
    (RetryScript.applyWrites fetch lookup ids games).getD gi [] = games.getD gi [] := by
  induction ids generalizing games with
  | nil => rfl
  | cons x rest ih =>
    have hx := h x (by simp)
    have hrest : ∀ y ∈ rest, RetryScript.writesTo fetch lookup y ≠ some gi :=
      fun y hy => h y (by simp [hy])
    cases hl : assocGet lookup x with
    | none =>
      show (RetryScript.applyWrites fetch lookup rest
        (match assocGet lookup x, fetch x with
         | some gj, some d =>
           if jsonTruthy d then games.set gj (assocSet (games.getD gj []) "steamInfo" d)
           else games
         | _, _ => games)).getD gi [] = games.getD gi []
      rw [hl]
      exact ih hrest
    | some gj =>
      cases hf : fetch x with
      | none =>
        show (RetryScript.applyWrites fetch lookup rest
          (match assocGet lookup x, fetch x with
           | some gj, some d =>
             if jsonTruthy d then games.set gj (assocSet (games.getD gj []) "steamInfo" d)
             else games
           | _, _ => games)).getD gi [] = games.getD gi []
        rw [hl, hf]
        exact ih hrest
      | some d =>
        cases ht : jsonTruthy d with
        | true =>
          have hgj : gj ≠ gi := by
            intro hgj
            exact hx (by simp [RetryScript.writesTo, hl, hf, ht, hgj])
          show (RetryScript.applyWrites fetch lookup rest
            (match assocGet lookup x, fetch x with
             | some gj, some d =>
               if jsonTruthy d then games.set gj (assocSet (games.getD gj []) "steamInfo" d)
               else games
             | _, _ => games)).getD gi [] = games.getD gi []
          rw [hl, hf]
          show (RetryScript.applyWrites fetch lookup rest
            (if jsonTruthy d = true then
              games.set gj (assocSet (games.getD gj []) "steamInfo" d)
             else games)).getD gi [] = games.getD gi []
          rw [if_pos ht, ih hrest]
          exact getD_set_ne _ _ _ hgj
        | false =>
          show (RetryScript.applyWrites fetch lookup rest
            (match assocGet lookup x, fetch x with
             | some gj, some d =>
               if jsonTruthy d then games.set gj (assocSet (games.getD gj []) "steamInfo" d)
               else games
             | _, _ => games)).getD gi [] = games.getD gi []
          rw [hl, hf]
          show (RetryScript.applyWrites fetch lookup rest
            (if jsonTruthy d = true then
              games.set gj (assocSet (games.getD gj []) "steamInfo" d)
             else games)).getD gi [] = games.getD gi []
          rw [if_neg (by simp [ht])]
          exact ih hrest

theorem applyWrites_getD_cases (fetch : Int → Option Json) (lookup : List (Int × Nat))
    (ids : List Int) (games : List Game) (gi : Nat) :
    (RetryScript.applyWrites fetch lookup ids games).getD gi [] = games.getD gi [] ∨
    ∃ x d, x ∈ ids ∧ assocGet lookup x = some gi ∧ fetch x = some d ∧
      jsonTruthy d = true ∧
      (RetryScript.applyWrites fetch lookup ids games).getD gi [] =
        assocSet (games.getD gi []) "steamInfo" d := by
  induction ids generalizing games with
  | nil => exact Or.inl rfl
  | cons x rest ih =>
    cases hl : assocGet lookup x with
    | none =>
      have hstep : RetryScript.applyWrites fetch lookup (x :: rest) games =
          RetryScript.applyWrites fetch lookup rest games := by
        show RetryScript.applyWrites fetch lookup rest
          (match assocGet lookup x, fetch x with
           | some gj, some d =>
             if jsonTruthy d then games.set gj (assocSet (games.getD gj []) "steamInfo" d)
             else games
           | _, _ => games) = _
        rw [hl]
      rw [hstep]
      rcases ih games with heq | ⟨y, d, hy, hly, hfy, hty, heq⟩
      · exact Or.inl heq
      · exact Or.inr ⟨y, d, by simp [hy], hly, hfy, hty, heq⟩
    | some gj =>
      cases hf : fetch x with
      | none =>
        have hstep : RetryScript.applyWrites fetch lookup (x :: rest) games =
            RetryScript.applyWrites fetch lookup rest games := by
          show RetryScript.applyWrites fetch lookup rest
            (match assocGet lookup x, fetch x with
             | some gj, some d =>
               if jsonTruthy d then games.set gj (assocSet (games.getD gj []) "steamInfo" d)
               else games
             | _, _ => games) = _
          rw [hl, hf]
        rw [hstep]
        rcases ih games with heq | ⟨y, d, hy, hly, hfy, hty, heq⟩
        · exact Or.inl heq
        · exact Or.inr ⟨y, d, by simp [hy], hly, hfy, hty, heq⟩
      | some d =>
        cases ht : jsonTruthy d with
        | false =>
          have hstep : RetryScript.applyWrites fetch lookup (x :: rest) games =
              RetryScript.applyWrites fetch lookup rest games := by
            show RetryScript.applyWrites fetch lookup rest
              (match assocGet lookup x, fetch x with
               | some gj, some d =>
                 if jsonTruthy d then games.set gj (assocSet (games.getD gj []) "steamInfo" d)
                 else games
               | _, _ => games) = _
            rw [hl, hf]
            show RetryScript.applyWrites fetch lookup rest
              (if jsonTruthy d = true then
                games.set gj (assocSet (games.getD gj []) "steamInfo" d)
               else games) = _
            rw [if_neg (by simp [ht])]
          rw [hstep]
          rcases ih games with heq | ⟨y, d', hy, hly, hfy, hty, heq⟩
          · exact Or.inl heq
          · exact Or.inr ⟨y, d', by simp [hy], hly, hfy, hty, heq⟩
        | true =>
          set games1 := games.set gj (assocSet (games.getD gj []) "steamInfo" d) with hg1
          have hstep : RetryScript.applyWrites fetch lookup (x :: rest) games =
              RetryScript.applyWrites fetch lookup rest games1 := by
            show RetryScript.applyWrites fetch lookup rest
              (match assocGet lookup x, fetch x with
               | some gj, some d =>
                 if jsonTruthy d then games.set gj (assocSet (games.getD gj []) "steamInfo" d)
                 else games
               | _, _ => games) = _
            rw [hl, hf]
            show RetryScript.applyWrites fetch lookup rest
              (if jsonTruthy d = true then
                games.set gj (assocSet (games.getD gj []) "steamInfo" d)
               else games) = _
            rw [if_pos ht]
          rw [hstep]
          by_cases hgij : gj = gi
          · subst hgij
            by_cases hlen : gj < games.length
            · have hg1get : games1.getD gj [] = assocSet (games.getD gj []) "steamInfo" d := by
                rw [hg1]
                exact getD_set_self _ _ _ _ hlen
              rcases ih games1 with heq | ⟨y, d', hy, hly, hfy, hty, heq⟩
              · exact Or.inr ⟨x, d, by simp, hl, hf, ht, by rw [heq, hg1get]⟩
              · refine Or.inr ⟨y, d', by simp [hy], hly, hfy, hty, ?_⟩
                rw [heq, hg1get, assocSet_assocSet_self]
            · have hg1eq : games1 = games := by
                rw [hg1, List.set_eq_of_length_le (by omega)]
              rw [hg1eq]
              rcases ih games with heq | ⟨y, d', hy, hly, hfy, hty, heq⟩
              · exact Or.inl heq
              · exact Or.inr ⟨y, d', by simp [hy], hly, hfy, hty, heq⟩
          · have hg1get : games1.getD gi [] = games.getD gi [] := by
              rw [hg1]
              exact getD_set_ne _ _ _ hgij
            rcases ih games1 with heq | ⟨y, d', hy, hly, hfy, hty, heq⟩
            · exact Or.inl (by rw [heq, hg1get])
            · exact Or.inr ⟨y, d', by simp [hy], hly, hfy, hty, by rw [heq, hg1get]⟩

theorem writesTo_lookup {fetch : Int → Option Json} {lkp : List (Int × Nat)} {y : Int}
    {gi : Nat} (h : RetryScript.writesTo fetch lkp y = some gi) :
    assocGet lkp y = some gi := by
  unfold RetryScript.writesTo at h
  split at h
  · rename_i gj hl
    split at h
    · rename_i d hf
      split at h
      · obtain rfl : gj = gi := by simpa using h
        exact hl
      · simp at h
    · simp at h
  · simp at h

/-- After the retry loop, the position a unique successful identifier
wrote to holds its payload under `steamInfo`. -/
theorem applyWrites_success_getD {fetch : Int → Option Json} {lkp : List (Int × Nat)}
    {failedIds : List Int} {games : List Game} {x : Int} {gi : Nat} {d : Json}
    (hb : RetryScript.buildLookup games 0 [] = .ok lkp)
    (hnd : failedIds.Nodup) (hx : x ∈ failedIds)
    (hl : assocGet lkp x = some gi) (hf : fetch x = some d) (ht : jsonTruthy d = true) :
    assocGet ((RetryScript.applyWrites fetch lkp failedIds games).getD gi [])
      "steamInfo" = some d := by
  obtain ⟨h0, hgilen, hfind⟩ := buildLookup_spec hb hl
  obtain ⟨l1, l2, rfl⟩ := List.append_of_mem hx
  have hxl2 : x ∉ l2 := by
    have : (x :: l2).Nodup := hnd.sublist (List.sublist_append_right l1 (x :: l2))
    exact (List.nodup_cons.mp this).1
  have huntouched : ∀ y ∈ l2, RetryScript.writesTo fetch lkp y ≠ some gi := by
    intro y hy hw
    have hly : assocGet lkp y = some gi := writesTo_lookup hw
    obtain ⟨-, -, hfindy⟩ := buildLookup_spec hb hly
    rw [hfind] at hfindy
    obtain rfl : x = y := by simpa using hfindy
    exact hxl2 hy
  rw [applyWrites_append]
  set G1 := RetryScript.applyWrites fetch lkp l1 games with hG1
  have hlen1 : G1.length = games.length := applyWrites_length fetch lkp l1 games
  have hstep : RetryScript.applyWrites fetch lkp (x :: l2) G1 =
      RetryScript.applyWrites fetch lkp l2
        (G1.set gi (assocSet (G1.getD gi []) "steamInfo" d)) := by
    show RetryScript.applyWrites fetch lkp l2
      (match assocGet lkp x, fetch x with
       | some gj, some d =>
         if jsonTruthy d then G1.set gj (assocSet (G1.getD gj []) "steamInfo" d)
         else G1
       | _, _ => G1) = _
    rw [hl, hf]
    show RetryScript.applyWrites fetch lkp l2
      (if jsonTruthy d = true then G1.set gi (assocSet (G1.getD gi []) "steamInfo" d)
       else G1) = _
    rw [if_pos ht]
  rw [hstep, applyWrites_getD_untouched huntouched,
    getD_set_self _ _ _ _ (by omega), assocGet_assocSet_self]

/-- C8: running retry preserves an already-set `steamInfo` field of any
record, unless a fetch for that record's own extracted identifier
succeeds (with a truthy payload), in which case the field holds the new
payload; a failed retry never clears or replaces it. -/
theorem claim_retry_preserves_enrichment {fetch : Int → Option Json} {failedIds : List Int}
    {games updated : List Game} {still tr : List Int} {p : Json} (i : Nat)
    (hrun : RetryScript.retry_failed_fetches fetch failedIds games = .ok (updated, still, tr))
    (hi : i < games.length)
    (hset : assocGet (games.getD i []) "steamInfo" = some p) :
    assocGet (updated.getD i []) "steamInfo" = some p ∨
    ∃ x d, RetryScript.find_steam_app_id (games.getD i []) = .ok (some x) ∧
      fetch x = some d ∧ jsonTruthy d = true ∧
      assocGet (updated.getD i []) "steamInfo" = some d := by
  cases hb : RetryScript.buildLookup games 0 [] with
  | error e =>
    unfold RetryScript.retry_failed_fetches at hrun
    rw [hb] at hrun
    simp at hrun
  | ok lkp =>
    have heq := @retry_failed_fetches_eq fetch failedIds games lkp hb
    rw [hrun] at heq
    obtain ⟨rfl, -, -⟩ :
        updated = RetryScript.applyWrites fetch lkp failedIds games ∧
        still = failedIds.filter (fun y => !RetryScript.succeedsB fetch lkp y) ∧
        tr = failedIds.filter (fun y => (assocGet lkp y).isSome) := by
      simpa using heq
    rcases applyWrites_getD_cases fetch lkp failedIds games i with heq2 | ⟨x, d, -, hl, hf, ht, heq2⟩
    · exact Or.inl (by rw [heq2]; exact hset)
    · obtain ⟨-, -, hfind⟩ := buildLookup_spec hb hl
      exact Or.inr ⟨x, d, hfind, hf, ht, by rw [heq2, assocGet_assocSet_self]⟩

/-- C1 (amended: for a duplicate-free failure list, as produced by an
enrichment run with distinct identifiers): retry classifies each
identifier of the input failure set exactly one way — an identifier
absent from the pre-built lookup lands in `still_failed` exactly once
with no fetch attempted; a looked-up identifier whose fetch fails lands
in `still_failed` exactly once; a looked-up identifier whose fetch
succeeds is absent from `still_failed` and the matched record holds the
payload.  With duplicate identifiers in the persisted failure list the
original "exactly once" guarantee fails (see the counterexample). -/
theorem claim_retry_accounting {fetch : Int → Option Json} {failedIds : List Int}
    {games updated : List Game} {still tr : List Int} {lkp : List (Int × Nat)} {x : Int}
    (hnd : failedIds.Nodup)
    (hb : RetryScript.buildLookup games 0 [] = .ok lkp)
    (hrun : RetryScript.retry_failed_fetches fetch failedIds games = .ok (updated, still, tr))
    (hx : x ∈ failedIds) :
    (assocGet lkp x = none → still.count x = 1 ∧ x ∉ tr) ∧
    (∀ gi, assocGet lkp x = some gi →
      ((fetch x = none ∨ ∃ d, fetch x = some d ∧ jsonTruthy d = false) →
        still.count x = 1) ∧
      (∀ d, fetch x = some d → jsonTruthy d = true →
        x ∉ still ∧
        assocGet (updated.getD gi []) "steamInfo" = some d)) := by
  have heq := @retry_failed_fetches_eq fetch failedIds games lkp hb
  rw [hrun] at heq
  obtain ⟨rfl, rfl, rfl⟩ :
      updated = RetryScript.applyWrites fetch lkp failedIds games ∧
      still = failedIds.filter (fun y => !RetryScript.succeedsB fetch lkp y) ∧
      tr = failedIds.filter (fun y => (assocGet lkp y).isSome) := by
    simpa using heq
  refine ⟨?_, ?_⟩
  · intro hmiss
    have hsucc : (!RetryScript.succeedsB fetch lkp x) = true := by
      simp [RetryScript.succeedsB, hmiss]
    refine ⟨?_, ?_⟩
    · rw [List.count_filter
        (p := fun y => !RetryScript.succeedsB fetch lkp y) (a := x) hsucc]
      exact List.count_eq_one_of_mem hnd hx
    · intro hmem
      have := (List.mem_filter.mp hmem).2
      rw [hmiss] at this
      simp at this
  · intro gi hl
    refine ⟨?_, ?_⟩
    · intro hfail
      have hsucc : (!RetryScript.succeedsB fetch lkp x) = true := by
        rcases hfail with hfail | ⟨d, hfail, hd⟩
        · simp [RetryScript.succeedsB, hl, hfail]
        · simp [RetryScript.succeedsB, hl, hfail, hd]
      rw [List.count_filter
        (p := fun y => !RetryScript.succeedsB fetch lkp y) (a := x) hsucc]
      exact List.count_eq_one_of_mem hnd hx
    · intro d hf ht
      refine ⟨?_, applyWrites_success_getD hb hnd hx hl hf ht⟩
      intro hmem
      have := (List.mem_filter.mp hmem).2
      rw [Bool.not_eq_true'] at this
      have : RetryScript.succeedsB fetch lkp x = true := by
        simp [RetryScript.succeedsB, hl, hf, ht]
      simp_all

/-- C1 (counterexample to the claim as stated): the persisted failure
list may contain an identifier twice (two games can carry the same Steam
uid); retrying `[7, 7]` against an empty enriched dataset puts `7` into
`still_failed` twice, not exactly once. -/
theorem claim_retry_accounting_counterexample :
    RetryScript.retry_failed_fetches (fun _ => none) [7, 7] [] =
      .ok ([], [7, 7], []) ∧
    ¬(([7, 7] : List Int).count 7 = 1) := ⟨rfl, by decide⟩

/-- C9 (amended): the enrichment stage writes the Failure Set document
exactly when its failure list is non-empty — a written document is
non-empty, an empty failure list writes nothing, and a non-empty
failure list does write the document with exactly that list (first
three conjuncts), so absence implies no failures for this stage; but
the retry stage, once it loads a non-empty failure list and a non-empty
enriched dataset and the retry pass completes, calls
`save_still_failed` unconditionally, writing the document even when
`still_failed` is empty (fourth conjunct). -/
theorem claim_failure_file_policy :
    (∀ (sa : List Int) (fetch : Int → Option Json) (gs : List Game) (c : List Int),
      EnrichScript.failureFileOutput sa fetch gs = .ok (some c) → c ≠ []) ∧
    (∀ (sa : List Int) (fetch : Int → Option Json) (gs out : List Game) (f t : List Int),
      EnrichScript.enrich_igdb_with_steam_data sa fetch gs = .ok (out, f, t) → f = [] →
      EnrichScript.failureFileOutput sa fetch gs = .ok none) ∧
    (∀ (sa : List Int) (fetch : Int → Option Json) (gs out : List Game) (f t : List Int),
      EnrichScript.enrich_igdb_with_steam_data sa fetch gs = .ok (out, f, t) → f ≠ [] →
      EnrichScript.failureFileOutput sa fetch gs = .ok (some f)) ∧
    (∀ (fetch : Int → Option Json) (failedIds : List Int) (games updated : List Game)
       (still tr : List Int),
      failedIds ≠ [] → games ≠ [] →
      RetryScript.retry_failed_fetches fetch failedIds games = .ok (updated, still, tr) →
      RetryScript.mainFailureFileOutput fetch failedIds games = .ok (some still)) := by
  refine ⟨?_, ?_, ?_, ?_⟩
  · intro sa fetch gs c h
    unfold EnrichScript.failureFileOutput at h
    cases hrun : EnrichScript.enrich_igdb_with_steam_data sa fetch gs with
    | error e => rw [hrun] at h; simp at h
    | ok res =>
      obtain ⟨out, f, t⟩ := res
      rw [hrun] at h
      have h' : (Except.ok (if f.isEmpty then none else some f) :
          Except PyErr (Option (List Int))) = Except.ok (some c) := h
      by_cases hf : f.isEmpty
      · rw [if_pos hf] at h'
        simp at h'
      · rw [if_neg hf] at h'
        obtain rfl : f = c := by simpa using h'
        simpa using hf
  · intro sa fetch gs out f t hrun hf
    subst hf
    unfold EnrichScript.failureFileOutput
    rw [hrun]
    rfl
  · intro sa fetch gs out f t hrun hf
    unfold EnrichScript.failureFileOutput
    rw [hrun]
    have h' : (Except.ok (if f.isEmpty then none else some f) :
        Except PyErr (Option (List Int))) = Except.ok (some f) := by
      rw [if_neg (fun hh => hf (List.isEmpty_iff.mp hh))]
    exact h'
  · intro fetch failedIds games updated still tr hne1 hne2 hrun
    unfold RetryScript.mainFailureFileOutput
    rw [if_neg (fun hh => hne1 (List.isEmpty_iff.mp hh)),
      if_neg (fun hh => hne2 (List.isEmpty_iff.mp hh)), hrun]

/-- C9 (counterexample to the claim as stated): a retry run that loads
the non-empty failure list `[5]`, succeeds for `5`, and hence ends with
an empty still-failed list, still writes the Failure Set document (with
content `[]`), because `main` calls `save_still_failed` unconditionally. -/
theorem claim_failure_file_retry_counterexample :
    RetryScript.mainFailureFileOutput
        (fun x => if x = 5 then some (Json.obj [("appid", Json.num 5)]) else none)
        [5]
        [[("external_games", Json.arr [Json.obj
          [("external_game_source", Json.obj [("name", Json.str "Steam")]),
           ("uid", Json.str "5")]])]]
      = .ok (some []) := rfl

/-- C10: a record whose first matching cross-reference entry lacks a
`uid` field extracts identifier `0` (the missing `uid` defaults to `0`,
which converts) rather than being skipped; the enrichment driver's
truthiness test (`if steam_app_id and ...`) then treats `0` as "none
found", so the record passes through with no fetch even when `0` is in
the Steam index; and the retry lookup (`if steam_app_id:`) never records
identifier `0`, so `0` never enters the retry fetch trace. -/
theorem claim_zero_identifier :
    (∀ (g : Game) (pre post : List Json) (kvs skvs : List (String × Json)) (nv : Json),
      assocGet g "external_games" = some (.arr (pre ++ .obj kvs :: post)) →
      (∀ p ∈ pre, EnrichScript.entryStep p = .skip) →
      assocGet kvs "external_game_source" = some (.obj skvs) →
      assocGet skvs "name" = some nv →
      jsonEqStr nv "Steam" = true →
      assocGet kvs "uid" = none →
      EnrichScript.find_steam_app_id g = .ok (some 0)) ∧
    (∀ (sa : List Int) (fetch : Int → Option Json) (g : Game),
      EnrichScript.find_steam_app_id g = .ok (some 0) →
      EnrichScript.enrichStep sa fetch g = .ok (g, [], [])) ∧
    (∀ (fetch : Int → Option Json) (failedIds : List Int) (games updated : List Game)
       (still tr : List Int),
      RetryScript.retry_failed_fetches fetch failedIds games = .ok (updated, still, tr) →
      (0 : Int) ∉ tr) := by
  refine ⟨?_, ?_, ?_⟩
  · intro g pre post kvs skvs nv hg hpre hsrc hname hsteam huid
    refine find_first_yield hg hpre ?_
    rw [entryStep_of_matching hsrc hname hsteam, huid]
    rfl
  · intro sa fetch g hfind
    exact enrichStep_no_fetch (Or.inr ⟨0, hfind, fun hc => hc.1 rfl⟩)
  · intro fetch failedIds games updated still tr hrun hmem
    cases hb : RetryScript.buildLookup games 0 [] with
    | error e =>
      unfold RetryScript.retry_failed_fetches at hrun
      rw [hb] at hrun
      simp at hrun
    | ok lkp =>
      have heq := @retry_failed_fetches_eq fetch failedIds games lkp hb
      rw [hrun] at heq
      obtain ⟨-, -, rfl⟩ :
          updated = RetryScript.applyWrites fetch lkp failedIds games ∧
          still = failedIds.filter (fun y => !RetryScript.succeedsB fetch lkp y) ∧
          tr = failedIds.filter (fun y => (assocGet lkp y).isSome) := by
        simpa using heq
      have hsome := (List.mem_filter.mp hmem).2
      cases hl : assocGet lkp (0 : Int) with
      | none => rw [hl] at hsome; simp at hsome
      | some gi => exact (buildLookup_spec hb hl).1 rfl

/-! ### Concrete fixtures and witnesses -/

/-- A Steam cross-reference entry with the given `uid` value. -/
def steamEntry (uid : Json) : Json :=
  Json.obj [("external_game_source", Json.obj [("name", Json.str "Steam")]), ("uid", uid)]

/-- A Steam cross-reference entry with no `uid` field at all. -/
def steamEntryNoUid : Json :=
  Json.obj [("external_game_source", Json.obj [("name", Json.str "Steam")])]

/-- A cross-reference entry for a different external system. -/
def gogEntry : Json :=
  Json.obj [("external_game_source", Json.obj [("name", Json.str "GOG")]), ("uid", Json.str "9")]

/-- A game record with the given `external_games` entries. -/
def gameWith (es : List Json) : Game := [("external_games", Json.arr es)]

/-- A fetcher that answers id `9` with a valid payload and fails otherwise. -/
def retryFetchW : Int → Option Json :=
  fun x => if x = 9 then some (Json.obj [("appid", Json.num 9)]) else none

/-- One enriched game carrying Steam uid `9`. -/
def retryGames : List Game := [gameWith [steamEntry (Json.str "9")]]

/-- An enriched game whose `steamInfo` is already set. -/
def presetGame : Game :=
  [("external_games", Json.arr [steamEntry (Json.str "9")]), ("steamInfo", Json.str "old")]

theorem claim_extract_first_match_wins_witness :
    EnrichScript.find_steam_app_id
        (gameWith [gogEntry, steamEntry (Json.str "abc"),
          steamEntry (Json.str "440"), steamEntry (Json.str "3")]) = .ok (some 440) ∧
    EnrichScript.entryStep (steamEntry (Json.str "abc")) = .skip := by
  constructor
  · exact claim_extract_first_match_wins.1
      (gameWith [gogEntry, steamEntry (Json.str "abc"),
        steamEntry (Json.str "440"), steamEntry (Json.str "3")])
      [gogEntry, steamEntry (Json.str "abc")]
      [steamEntry (Json.str "3")]
      [("external_game_source", Json.obj [("name", Json.str "Steam")]),
        ("uid", Json.str "440")]
      [("name", Json.str "Steam")] (Json.str "Steam") 440
      rfl (by decide) rfl rfl rfl rfl
  · exact claim_extract_first_match_wins.2
      [("external_game_source", Json.obj [("name", Json.str "Steam")]),
        ("uid", Json.str "abc")]
      [("name", Json.str "Steam")] (Json.str "Steam") rfl rfl rfl rfl

theorem claim_enrich_order_preservation_witness :
    ∃ out f t,
      EnrichScript.enrich_igdb_with_steam_data [440] (fun _ => none)
          [gameWith [steamEntry (Json.str "440")], []] = .ok (out, f, t) ∧
      out.length = [gameWith [steamEntry (Json.str "440")], ([] : Game)].length ∧
      ∀ i, i < [gameWith [steamEntry (Json.str "440")], ([] : Game)].length →
        out.getD i [] = [gameWith [steamEntry (Json.str "440")], ([] : Game)].getD i [] ∨
        ∃ d, out.getD i [] =
          assocSet ([gameWith [steamEntry (Json.str "440")], ([] : Game)].getD i [])
            "steamInfo" d :=
  claim_enrich_order_preservation (by decide)

theorem claim_no_data_loss_on_failure_witness :
    (440 : Int) ∈ [(440 : Int)] ∧
    assocGet (([gameWith [steamEntry (Json.str "440")]] : List Game).getD 0 [])
      "steamInfo" = none :=
  @claim_no_data_loss_on_failure [440] (fun _ => none)
    [gameWith [steamEntry (Json.str "440")]] [gameWith [steamEntry (Json.str "440")]]
    [440] [440] 440 0 rfl (by decide) rfl (by decide) rfl (by decide) rfl

theorem claim_secondary_index_gating_witness :
    EnrichScript.enrichStep [] (fun _ => none)
        (([gameWith [steamEntry (Json.str "440")]] : List Game).getD 0 []) =
      .ok (([gameWith [steamEntry (Json.str "440")]] : List Game).getD 0 [], [], []) ∧
    ([gameWith [steamEntry (Json.str "440")]] : List Game).getD 0 [] =
      ([gameWith [steamEntry (Json.str "440")]] : List Game).getD 0 [] :=
  claim_secondary_index_gating 0 rfl (by decide) (Or.inr ⟨440, rfl, by decide⟩)

theorem claim_retry_accounting_witness :
    (assocGet [((9 : Int), (0 : Nat))] (9 : Int) = none →
      ([7] : List Int).count 9 = 1 ∧ (9 : Int) ∉ ([9] : List Int)) ∧
    (∀ gi, assocGet [((9 : Int), (0 : Nat))] (9 : Int) = some gi →
      ((retryFetchW 9 = none ∨ ∃ d, retryFetchW 9 = some d ∧ jsonTruthy d = false) →
        ([7] : List Int).count 9 = 1) ∧
      (∀ d, retryFetchW 9 = some d → jsonTruthy d = true →
        (9 : Int) ∉ ([7] : List Int) ∧
        assocGet (([[("external_games", Json.arr [steamEntry (Json.str "9")]),
            ("steamInfo", Json.obj [("appid", Json.num 9)])]] : List Game).getD gi [])
          "steamInfo" = some d)) :=
  @claim_retry_accounting retryFetchW [9, 7] retryGames
    [[("external_games", Json.arr [steamEntry (Json.str "9")]),
      ("steamInfo", Json.obj [("appid", Json.num 9)])]]
    [7] [9] [((9 : Int), (0 : Nat))] 9 (by decide) rfl rfl (by decide)

theorem claim_retry_preserves_enrichment_witness :
    assocGet (([presetGame] : List Game).getD 0 []) "steamInfo" = some (Json.str "old") ∨
    ∃ x d, RetryScript.find_steam_app_id (([presetGame] : List Game).getD 0 []) =
        .ok (some x) ∧
      (fun _ : Int => (none : Option Json)) x = some d ∧ jsonTruthy d = true ∧
      assocGet (([presetGame] : List Game).getD 0 []) "steamInfo" = some d :=
  @claim_retry_preserves_enrichment (fun _ : Int => (none : Option Json)) [9]
    [presetGame] [presetGame] [9] [9] (Json.str "old") 0 rfl (by decide) rfl

theorem claim_failure_file_policy_witness :
    ([(440 : Int)] ≠ []) ∧
    EnrichScript.failureFileOutput [] (fun _ => none) [] = .ok none ∧
    EnrichScript.failureFileOutput [440] (fun _ => none)
      [gameWith [steamEntry (Json.str "440")]] = .ok (some [440]) ∧
    RetryScript.mainFailureFileOutput retryFetchW [9] retryGames = .ok (some []) := by
  refine ⟨?_, ?_, ?_, ?_⟩
  · exact claim_failure_file_policy.1 [440] (fun _ => none)
      [gameWith [steamEntry (Json.str "440")]] [440] rfl
  · exact claim_failure_file_policy.2.1 [] (fun _ => none) [] [] [] [] rfl rfl
  · exact claim_failure_file_policy.2.2.1 [440] (fun _ => none)
      [gameWith [steamEntry (Json.str "440")]] [gameWith [steamEntry (Json.str "440")]]
      [440] [440] rfl (by simp)
  · exact claim_failure_file_policy.2.2.2 retryFetchW [9] retryGames
      [[("external_games", Json.arr [steamEntry (Json.str "9")]),
        ("steamInfo", Json.obj [("appid", Json.num 9)])]] [] [9]
      (by simp) (by simp [retryGames]) rfl

theorem claim_zero_identifier_witness :
    EnrichScript.find_steam_app_id (gameWith [steamEntryNoUid]) = .ok (some 0) ∧
    EnrichScript.enrichStep [0] (fun _ => some (Json.obj [("appid", Json.num 0)]))
        (gameWith [steamEntryNoUid]) = .ok (gameWith [steamEntryNoUid], [], []) ∧
    (0 : Int) ∉ ([] : List Int) := by
  refine ⟨?_, ?_, ?_⟩
  · exact claim_zero_identifier.1 (gameWith [steamEntryNoUid]) [] []
      [("external_game_source", Json.obj [("name", Json.str "Steam")])]
      [("name", Json.str "Steam")] (Json.str "Steam")
      rfl (by simp) rfl rfl rfl rfl
  · exact claim_zero_identifier.2.1 [0]
      (fun _ => some (Json.obj [("appid", Json.num 0)]))
      (gameWith [steamEntryNoUid]) rfl
  · exact claim_zero_identifier.2.2 (fun _ => none) [0] retryGames retryGames [0] [] rfl
